import Mathlib

/-!
Verification development for the OpenPlatform API client
(`src/core/OpenPlatform.js` of the ddb-react repository).

The client is a sequence of HTTP request builders over a fixed upstream
API.  We embed the pure parts of the client shallowly:

* JavaScript values that can appear in a decoded JSON response are
  modelled by the inductive type `JSValue`, with JavaScript truthiness
  (`truthy`) and lodash `isEmpty` (`isEmptyJS`) as Boolean functions.
* The HTTP transport is an oracle parameter (a function from the request
  path to the decoded result), so every operation of the client becomes a
  pure function of its inputs and of the oracle.
* `fetch`/`Promise` failure (exception / rejected promise) is modelled by
  `Except String`.
-/

/-- A JavaScript value as it can appear in a decoded JSON response.
`undefined` stands for an absent object property. -/
inductive JSValue : Type where
  | undefined : JSValue
  | null : JSValue
  | bool : Bool → JSValue
  | num : Int → JSValue
  | str : String → JSValue
  | arr : List JSValue → JSValue
  | obj : List (String × JSValue) → JSValue

/-- JavaScript truthiness of a `JSValue`: `undefined`, `null`, `false`,
`0` and `""` are falsy, every array and object (even empty) is truthy.
(The JSON-decodable values carry no `NaN`, so integer numbers suffice.) -/
def truthy : JSValue → Bool
  | JSValue.undefined => false
  | JSValue.null => false
  | JSValue.bool b => b
  | JSValue.num n => n != 0
  | JSValue.str s => s != ""
  | JSValue.arr _ => true
  | JSValue.obj _ => true

/-- lodash `isEmpty`: `null`-ish values, booleans and numbers are empty;
strings, arrays and objects are empty when they have no elements / keys. -/
def isEmptyJS : JSValue → Bool
  | JSValue.undefined => true
  | JSValue.null => true
  | JSValue.bool _ => true
  | JSValue.num _ => true
  | JSValue.str s => s == ""
  | JSValue.arr xs => xs.isEmpty
  | JSValue.obj fs => fs.isEmpty

/-- A falsy JavaScript value is always lodash-empty. -/
theorem isEmptyJS_of_not_truthy (v : JSValue) (hv : truthy v = false) :
    isEmptyJS v = true := by
  cases v <;> simp_all [truthy, isEmptyJS]

/-- The standard OpenPlatform response envelope after `rawResponse.json()`:
`statusCode` is a JSON number, `data` is any JSON value (`undefined` when
the field is absent) and `error` is the upstream error message. -/
structure Response where
  statusCode : Int
  data : JSValue
  error : String

/-- `OpenPlatform.request`, response-unwrapping part (the fetch itself is
the caller-supplied oracle).  Source:
`if (response.statusCode !== 200) throw Error(response.error);`
`if (!response.data) throw Error("data not found");`
`return response.data;` -/
def request (response : Response) : Except String JSValue :=
  if response.statusCode != 200 then Except.error response.error
  else if !(truthy response.data) then Except.error "data not found"
  else Except.ok response.data

/-- Claim C1 (amended): `request` fails with the upstream `error` message
whenever `statusCode !== 200`; fails with the generic message
"data not found" whenever `statusCode === 200` and `data` is absent or
otherwise falsy; and otherwise returns `response.data` unchanged.  The
final two conjuncts are the spec scenarios: status 404 with
`error: "not found"`, and status 200 with `data` undefined. -/
theorem request_envelope (r : Response) :
    (r.statusCode ≠ 200 → request r = Except.error r.error) ∧
    (r.statusCode = 200 → truthy r.data = false →
      request r = Except.error "data not found") ∧
    (r.statusCode = 200 → truthy r.data = true → request r = Except.ok r.data) ∧
    request ⟨404, JSValue.undefined, "not found"⟩ = Except.error "not found" ∧
    request ⟨200, JSValue.undefined, "irrelevant"⟩ = Except.error "data not found" := by
  refine ⟨?_, ?_, ?_, rfl, rfl⟩
  · intro h
    simp [request, h]
  · intro h200 hfalsy
    simp [request, h200, hfalsy]
  · intro h200 htruthy
    simp [request, h200, htruthy]

/-- Claim C1, counterexample to the claim as stated: for the envelope
`{statusCode: 200, data: 0}` the `data` field is present (not absent),
yet `request` does not return it unchanged; it rejects with
"data not found" because `0` is falsy. -/
theorem request_envelope_cex :
    request ⟨200, JSValue.num 0, ""⟩ = Except.error "data not found" ∧
    JSValue.num 0 ≠ JSValue.undefined ∧
    request ⟨200, JSValue.num 0, ""⟩ ≠ Except.ok (JSValue.num 0) := by
  refine ⟨rfl, fun h => ?_, fun h => ?_⟩
  · exact JSValue.noConfusion h
  · exact Except.noConfusion h

/-- Witness for `request_envelope` at concrete envelopes. -/
theorem request_envelope_witness :
    request ⟨404, JSValue.num 1, "bad"⟩ = Except.error "bad" ∧
    request ⟨200, JSValue.str "x", ""⟩ = Except.ok (JSValue.str "x") := by
  exact ⟨(request_envelope ⟨404, JSValue.num 1, "bad"⟩).1 (by decide),
    (request_envelope ⟨200, JSValue.str "x", ""⟩).2.2.1 rfl rfl⟩

/-- Claim C10: `request` rejects with "data not found" for every response
whose `data` field is present but falsy, not only when `data` is absent;
a truthy empty array is accepted and returned. -/
theorem request_falsy_data (r : Response) (h200 : r.statusCode = 200)
    (hfalsy : truthy r.data = false) :
    request r = Except.error "data not found" ∧
    request ⟨200, JSValue.num 0, ""⟩ = Except.error "data not found" ∧
    request ⟨200, JSValue.str "", ""⟩ = Except.error "data not found" ∧
    request ⟨200, JSValue.bool false, ""⟩ = Except.error "data not found" ∧
    request ⟨200, JSValue.null, ""⟩ = Except.error "data not found" ∧
    request ⟨200, JSValue.arr [], ""⟩ = Except.ok (JSValue.arr []) := by
  refine ⟨?_, rfl, rfl, rfl, rfl, rfl⟩
  simp [request, h200, hfalsy]

/-- Witness for `request_falsy_data` at a concrete falsy envelope. -/
theorem request_falsy_data_witness :
    request ⟨200, JSValue.null, ""⟩ = Except.error "data not found" ∧
    request ⟨200, JSValue.arr [], ""⟩ = Except.ok (JSValue.arr []) := by
  exact ⟨(request_falsy_data ⟨200, JSValue.null, ""⟩ rfl rfl).1,
    (request_falsy_data ⟨200, JSValue.null, ""⟩ rfl rfl).2.2.2.2.2⟩

/-- Uppercase hexadecimal digit for a value below 16 (as produced by
JavaScript percent-encoding). -/
def hexDigitChar (n : Nat) : Char :=
  if n < 10 then Char.ofNat (48 + n) else Char.ofNat (55 + n)

/-- Percent-encoding of one byte: `%XX` with uppercase hex digits. -/
def percentEncodeByte (b : Nat) : String :=
  String.mk ['%', hexDigitChar (b / 16), hexDigitChar (b % 16)]

/-- UTF-8 bytes of a Unicode code point. -/
def utf8Bytes (n : Nat) : List Nat :=
  if n < 128 then [n]
  else if n < 2048 then [192 + n / 64, 128 + n % 64]
  else if n < 65536 then [224 + n / 4096, 128 + (n / 64) % 64, 128 + n % 64]
  else [240 + n / 262144, 128 + (n / 4096) % 64, 128 + (n / 64) % 64, 128 + n % 64]

/-- Code points left unescaped by JavaScript `encodeURIComponent`:
letters, digits and `- _ . ! ~ * ' ( )`. -/
def isUnreservedCode (n : Nat) : Bool :=
  decide ((48 ≤ n ∧ n ≤ 57) ∨ (65 ≤ n ∧ n ≤ 90) ∨ (97 ≤ n ∧ n ≤ 122) ∨
    n = 45 ∨ n = 95 ∨ n = 46 ∨ n = 33 ∨ n = 126 ∨ n = 42 ∨ n = 39 ∨ n = 40 ∨ n = 41)

/-- One character of `encodeURIComponent` output. -/
def encodeChar (c : Char) : String :=
  if isUnreservedCode c.toNat then String.mk [c]
  else String.join ((utf8Bytes c.toNat).map percentEncodeByte)

/-- JavaScript `encodeURIComponent`: unreserved characters pass through,
everything else is percent-encoded byte-wise in UTF-8. -/
def encodeURIComponent (s : String) : String :=
  String.join (s.data.map encodeChar)

/-- `formatUrlArray` from the source: percent-encode each item, join the
items with commas and always add one trailing comma
(`items.map(encodeURIComponent).join(",") + ","`). -/
def formatUrlArray (items : List String) : String :=
  String.intercalate "," (items.map encodeURIComponent) ++ ","

/-- Claim C3: `formatUrlArray` returns the elements percent-encoded,
joined with commas, followed by one mandatory trailing comma; in
particular it yields "," on the empty list and "a,b," on `["a", "b"]`.
The final conjunct checks a pid that actually needs percent-encoding. -/
theorem formatUrlArray_spec (items : List String) :
    formatUrlArray items
      = String.intercalate "," (items.map encodeURIComponent) ++ "," ∧
    formatUrlArray [] = "," ∧
    formatUrlArray ["a", "b"] = "a,b," ∧
    formatUrlArray ["870970-basis:1"] = "870970-basis%3A1," := by
  exact ⟨rfl, rfl, rfl, rfl⟩

/-- Witness for `formatUrlArray_spec` evaluated at the empty list. -/
theorem formatUrlArray_spec_witness : formatUrlArray [] = "," :=
  (formatUrlArray_spec []).2.1

/-- Fuel-indexed worker for lodash `chunk`: with fuel at least the length
of the list (and a positive chunk size) it produces the consecutive
chunks of size `n`.  The fuel makes the recursion structural. -/
def chunkListAux (fuel n : Nat) (xs : List α) : List (List α) :=
  match fuel, xs with
  | _, [] => []
  | 0, _ => []
  | Nat.succ f, xs => xs.take n :: chunkListAux f n (xs.drop n)

/-- lodash `chunk(array, n)`: split `array` into consecutive groups of
`n` elements, the last group possibly shorter; empty for `n = 0`. -/
def chunkList (n : Nat) (xs : List α) : List (List α) :=
  if n = 0 then [] else chunkListAux xs.length n xs

/-- Every chunk produced by the worker has at most `n` elements. -/
theorem chunkListAux_mem_length : ∀ (fuel n : Nat) (xs : List α) (c : List α),
    c ∈ chunkListAux fuel n xs → c.length ≤ n := by
  intro fuel
  induction fuel with
  | zero => intro n xs c hc; cases xs <;> simp [chunkListAux] at hc
  | succ f ih =>
    intro n xs c hc
    cases xs with
    | nil => simp [chunkListAux] at hc
    | cons x xs =>
      simp only [chunkListAux] at hc
      rcases List.mem_cons.mp hc with h | h
      · subst h; simp [List.length_take]
      · exact ih n _ c h

/-- Every chunk of `chunkList n xs` has at most `n` elements. -/
theorem chunkList_length_le {n : Nat} {xs : List α} (c : List α)
    (hc : c ∈ chunkList n xs) : c.length ≤ n := by
  unfold chunkList at hc
  split at hc
  · simp at hc
  · exact chunkListAux_mem_length _ n xs c hc

/-- With enough fuel and a positive chunk size the worker's chunks
flatten back to the original list. -/
theorem chunkListAux_flatten : ∀ (fuel n : Nat) (xs : List α),
    xs.length ≤ fuel → 0 < n → (chunkListAux fuel n xs).flatten = xs := by
  intro fuel
  induction fuel with
  | zero =>
    intro n xs hlen _
    cases xs with
    | nil => rfl
    | cons x xs => simp at hlen
  | succ f ih =>
    intro n xs hlen hn
    cases xs with
    | nil => rfl
    | cons x xs =>
      simp only [chunkListAux, List.flatten_cons]
      rw [ih n _ (by simp at hlen ⊢; omega) hn, List.take_append_drop]

/-- The chunks of `chunkList n xs` concatenate back to `xs`. -/
theorem chunkList_flatten {n : Nat} (hn : 0 < n) (xs : List α) :
    (chunkList n xs).flatten = xs := by
  unfold chunkList
  rw [if_neg (by omega)]
  exact chunkListAux_flatten _ n xs (Nat.le_refl _) hn

/-- With enough fuel, chunking into groups of 20 produces exactly
the ceiling of `length / 20` chunks. -/
theorem chunkListAux_count : ∀ (fuel : Nat) (xs : List α),
    xs.length ≤ fuel →
    (chunkListAux fuel 20 xs).length = (xs.length + 19) / 20 := by
  intro fuel
  induction fuel with
  | zero =>
    intro xs hlen
    cases xs with
    | nil => simp [chunkListAux]
    | cons x xs => simp at hlen
  | succ f ih =>
    intro xs hlen
    cases xs with
    | nil => simp [chunkListAux]
    | cons x xs =>
      simp only [chunkListAux, List.length_cons]
      rw [ih _ (by simp at hlen ⊢; omega)]
      simp only [List.length_drop, List.length_cons]
      omega

/-- `chunkList 20` produces exactly `ceil(length / 20)` chunks. -/
theorem chunkList_count (xs : List α) :
    (chunkList 20 xs).length = (xs.length + 19) / 20 := by
  unfold chunkList
  rw [if_neg (by omega)]
  exact chunkListAux_count _ xs (Nat.le_refl _)

/-- `Promise.all` over a mapped list: every element must succeed, the
first rejection (in list order) rejects the aggregate, and successes
are collected in order. -/
def mapExcept (f : α → Except ε β) : List α → Except ε (List β)
  | [] => Except.ok []
  | x :: xs =>
    match f x with
    | Except.error e => Except.error e
    | Except.ok y => (mapExcept f xs).map (fun ys => y :: ys)

/-- `mapExcept` only looks at the function's values on the list. -/
theorem mapExcept_congr {f g : α → Except ε β} : ∀ {xs : List α},
    (∀ x ∈ xs, f x = g x) → mapExcept f xs = mapExcept g xs := by
  intro xs
  induction xs with
  | nil => intro _; rfl
  | cons x xs ih =>
    intro h
    simp only [mapExcept, h x (List.mem_cons_self x xs)]
    rw [ih (fun y hy => h y (List.mem_cons_of_mem x hy))]

/-- `mapExcept` over a mapped list composes the functions. -/
theorem mapExcept_map (f : β → Except ε γ) (g : α → β) : ∀ (xs : List α),
    mapExcept f (xs.map g) = mapExcept (fun a => f (g a)) xs := by
  intro xs
  induction xs with
  | nil => rfl
  | cons x xs ih => simp only [List.map_cons, mapExcept, ih]

/-- `mapExcept` over an attached list forgets the membership proofs. -/
theorem mapExcept_attach (f : α → Except ε β) (xs : List α) :
    mapExcept (fun c => f c.1) xs.attach = mapExcept f xs := by
  have h : xs.attach.map Subtype.val = xs := by
    simp
  conv_rhs => rw [← h]
  rw [mapExcept_map]

/-- If every element succeeds pointwise, `mapExcept` collects the
results in order. -/
theorem mapExcept_ok_of {f : α → Except ε β} {g : α → β} : ∀ {xs : List α},
    (∀ x ∈ xs, f x = Except.ok (g x)) → mapExcept f xs = Except.ok (xs.map g) := by
  intro xs
  induction xs with
  | nil => intro _; rfl
  | cons x xs ih =>
    intro h
    simp only [mapExcept, h x (List.mem_cons_self x xs)]
    rw [ih (fun y hy => h y (List.mem_cons_of_mem x hy))]
    rfl

/-- If any element fails, `mapExcept` fails (no partial results). -/
theorem mapExcept_error_of {f : α → Except ε β} {x : α} {e : ε} :
    ∀ {xs : List α}, x ∈ xs → f x = Except.error e →
    ∃ e2, mapExcept f xs = Except.error e2 := by
  intro xs
  induction xs with
  | nil => intro h _; simp at h
  | cons a xs ih =>
    intro hmem hfx
    rcases List.mem_cons.mp hmem with h | h
    · subst h
      exact ⟨e, by simp only [mapExcept, hfx]⟩
    · cases hfa : f a with
      | error e3 => exact ⟨e3, by simp only [mapExcept, hfa]⟩
      | ok y =>
        obtain ⟨e2, h2⟩ := ih h hfx
        exact ⟨e2, by simp only [mapExcept, hfa, h2]; rfl⟩

/-- Maximum number of pids OpenPlatform accepts per `work` request
(`const pidLimit = 20` in the source). -/
def pidLimit : Nat := 20

/-- Path of a `work` request:
`work?access_token=TOKEN&fields=FIELDS&pids=PIDS` with
`formattedFields = fields.map(encodeURIComponent).join(",")` and
`formattedPids = formatUrlArray(pids)`. -/
def workPath (token : String) (fields pids : List String) : String :=
  "work?access_token=" ++ token ++ "&fields=" ++
    String.intercalate "," (fields.map encodeURIComponent) ++
    "&pids=" ++ formatUrlArray pids

/-- The unchunked branch of `getWork`: one request, then
`works.filter(result => !isEmpty(result))`.  The oracle `req` maps the
request path to the decoded `data` (a list of work records) or a
failure. -/
def getWorkUnchunked (token : String) (req : String → Except String (List JSValue))
    (fields pids : List String) : Except String (List JSValue) :=
  (req (workPath token fields pids)).map
    (List.filter (fun result => !(isEmptyJS result)))

/-- `OpenPlatform.getWork`: for more than `pidLimit` pids, chunk the pid
list, recurse on each chunk (`Promise.all` + `[].concat(...results)`),
otherwise issue a single request and filter empty records.  The
recursion always terminates because every chunk has at most `pidLimit`
elements, strictly fewer than the chunked list. -/
def getWork (token : String) (req : String → Except String (List JSValue))
    (pids fields : List String) : Except String (List JSValue) :=
  if h : pids.length > pidLimit then
    (mapExcept (fun pidChunk => getWork token req pidChunk.1 fields)
      (chunkList pidLimit pids).attach).map List.flatten
  else
    getWorkUnchunked token req fields pids
termination_by pids.length
decreasing_by
  exact Nat.lt_of_le_of_lt (chunkList_length_le _ pidChunk.2) h

/-- At most `pidLimit` pids: `getWork` is the single filtered request. -/
theorem getWork_le (token : String) (req : String → Except String (List JSValue))
    (pids fields : List String) (h : pids.length ≤ pidLimit) :
    getWork token req pids fields = getWorkUnchunked token req fields pids := by
  unfold getWork
  rw [dif_neg (by omega)]

/-- Above `pidLimit` pids: `getWork` maps the single filtered request
over the chunks and flattens the per-chunk results. -/
theorem getWork_gt (token : String) (req : String → Except String (List JSValue))
    (pids fields : List String) (h : pids.length > pidLimit) :
    getWork token req pids fields
      = (mapExcept (fun c => getWorkUnchunked token req fields c)
          (chunkList pidLimit pids)).map List.flatten := by
  conv_lhs => unfold getWork
  rw [dif_pos h]
  have hcong : mapExcept (fun pidChunk : {x // x ∈ chunkList pidLimit pids} =>
      getWork token req pidChunk.1 fields) (chunkList pidLimit pids).attach
      = mapExcept (fun pidChunk : {x // x ∈ chunkList pidLimit pids} =>
          getWorkUnchunked token req fields pidChunk.1) (chunkList pidLimit pids).attach := by
    refine mapExcept_congr ?_
    intro c _
    exact getWork_le token req c.1 fields (chunkList_length_le c.1 c.2)
  rw [hcong, mapExcept_attach (fun c => getWorkUnchunked token req fields c)]

/-- Claim C2: for every pid list of length above 20, `getWork` splits the
list into consecutive chunks of at most 20 pids, issues exactly
`ceil(n / 20)` requests (one per chunk, which is what the `mapExcept`
over `chunkList` expresses), returns the per-chunk results concatenated
in original chunk order, and fails as a whole (no partial results) as
soon as any one chunk request fails. -/
theorem getWork_chunks (token : String) (req : String → Except String (List JSValue))
    (pids fields : List String) (h : pids.length > 20) :
    getWork token req pids fields
      = (mapExcept (fun c => getWorkUnchunked token req fields c)
          (chunkList 20 pids)).map List.flatten ∧
    (chunkList 20 pids).flatten = pids ∧
    (∀ c ∈ chunkList 20 pids, c.length ≤ 20) ∧
    (chunkList 20 pids).length = (pids.length + 19) / 20 ∧
    (∀ results : List String → List JSValue,
      (∀ c ∈ chunkList 20 pids,
        getWorkUnchunked token req fields c = Except.ok (results c)) →
      getWork token req pids fields
        = Except.ok (((chunkList 20 pids).map results).flatten)) ∧
    (∀ c ∈ chunkList 20 pids, ∀ e,
      getWorkUnchunked token req fields c = Except.error e →
      ∃ e2, getWork token req pids fields = Except.error e2) := by
  have hmain := getWork_gt token req pids fields (by simpa [pidLimit] using h)
  have hlim : pidLimit = 20 := rfl
  rw [hlim] at hmain
  refine ⟨hmain, chunkList_flatten (by omega) pids,
    fun c hc => chunkList_length_le c (by simpa [pidLimit] using hc),
    chunkList_count pids, ?_, ?_⟩
  · intro results hok
    rw [hmain, mapExcept_ok_of hok]
    rfl
  · intro c hc e herr
    obtain ⟨e2, h2⟩ := mapExcept_error_of hc herr
    exact ⟨e2, by rw [hmain, h2]; rfl⟩

/-- Witness for `getWork_chunks`: 21 pids against a stub transport are
split into 2 chunks and the aggregated call returns the concatenation
(the stub returns an empty record list for every chunk). -/
theorem getWork_chunks_witness :
    (List.replicate 21 "p").length > 20 ∧
    (chunkList 20 (List.replicate 21 "p")).length
      = ((List.replicate 21 "p").length + 19) / 20 ∧
    getWork "t" (fun _ => Except.ok []) (List.replicate 21 "p") ["title"]
      = Except.ok [] := by
  have h := getWork_chunks "t" (fun _ => Except.ok [])
    (List.replicate 21 "p") ["title"] (by decide)
  refine ⟨by decide, h.2.2.2.1, ?_⟩
  have hres := h.2.2.2.2.1 (fun _ => []) (fun c _ => rfl)
  have hflat : (((chunkList 20 (List.replicate 21 "p")).map
      (fun _ => ([] : List JSValue)))).flatten = [] := rfl
  rw [hres, hflat]

/-- Claim C6: for at most 20 pids, a successful request's result list is
returned with every lodash-empty entry removed, and in particular every
falsy or empty entry of the response is absent from the result. -/
theorem getWork_filters (token : String) (req : String → Except String (List JSValue))
    (pids fields : List String) (entries : List JSValue)
    (hlen : pids.length ≤ 20)
    (hreq : req (workPath token fields pids) = Except.ok entries) :
    getWork token req pids fields
      = Except.ok (entries.filter (fun result => !(isEmptyJS result))) ∧
    (∀ r ∈ entries, (truthy r = false ∨ isEmptyJS r = true) →
      r ∉ entries.filter (fun result => !(isEmptyJS result))) := by
  constructor
  · rw [getWork_le token req pids fields (by simpa [pidLimit] using hlen)]
    rw [getWorkUnchunked, hreq]
    rfl
  · intro r _ hr hmem
    have hempty : isEmptyJS r = true := by
      rcases hr with hf | he
      · exact isEmptyJS_of_not_truthy r hf
      · exact he
    have := List.of_mem_filter hmem
    simp [hempty] at this

/-- Witness for `getWork_filters`: the spec scenario, two pids against a
stub returning `{statusCode: 200, data: [{title: "A"}, {}]}` yield
exactly the one non-empty record. -/
theorem getWork_filters_witness :
    getWork "t"
      (fun _ => Except.ok [JSValue.obj [("title", JSValue.str "A")], JSValue.obj []])
      ["870970-basis:1", "870970-basis:2"] ["title"]
      = Except.ok [JSValue.obj [("title", JSValue.str "A")]] := by
  have h := (getWork_filters "t"
    (fun _ => Except.ok [JSValue.obj [("title", JSValue.str "A")], JSValue.obj []])
    ["870970-basis:1", "870970-basis:2"] ["title"]
    [JSValue.obj [("title", JSValue.str "A")], JSValue.obj []]
    (by decide) rfl).1
  exact h

/-- An availability record as used by `canBeOrdered`; the spec's data
model declares both fields Boolean. -/
structure AvailabilityRecord where
  willLend : Bool
  orderPossible : Bool

/-- `OpenPlatform.canBeOrdered`, reduction step over the result of
`getAvailability` (passed in as the already-settled promise):
`response.some(orderStat => orderStat.willLend && orderStat.orderPossible)`. -/
def canBeOrdered (availability : Except String (List AvailabilityRecord)) :
    Except String Bool :=
  availability.map (fun response =>
    response.any (fun orderStat => orderStat.willLend && orderStat.orderPossible))

/-- Claim C4: `canBeOrdered` returns true if and only if at least one
record of the availability response has both `willLend` and
`orderPossible` true; on the empty availability list it returns false. -/
theorem canBeOrdered_spec (response : List AvailabilityRecord) :
    (canBeOrdered (Except.ok response) = Except.ok true ↔
      ∃ r ∈ response, r.willLend = true ∧ r.orderPossible = true) ∧
    canBeOrdered (Except.ok ([] : List AvailabilityRecord)) = Except.ok false := by
  constructor
  · constructor
    · intro h
      have hany : response.any
          (fun orderStat => orderStat.willLend && orderStat.orderPossible) = true := by
        simp only [canBeOrdered, Except.map] at h
        exact Except.ok.inj h
      obtain ⟨r, hr, hb⟩ := List.any_eq_true.mp hany
      exact ⟨r, hr, by simpa using hb⟩
    · intro ⟨r, hr, h1, h2⟩
      have hany : response.any
          (fun orderStat => orderStat.willLend && orderStat.orderPossible) = true :=
        List.any_eq_true.mpr ⟨r, hr, by rw [h1, h2]; rfl⟩
      simp only [canBeOrdered, Except.map, hany]
  · rfl

/-- Witness for `canBeOrdered_spec` on a singleton orderable record. -/
theorem canBeOrdered_spec_witness :
    canBeOrdered (Except.ok [AvailabilityRecord.mk true true]) = Except.ok true := by
  exact (canBeOrdered_spec [AvailabilityRecord.mk true true]).1.mpr
    ⟨AvailabilityRecord.mk true true, List.mem_singleton.mpr rfl, rfl, rfl⟩

/-- A branch record; of the many fields of the upstream `Libraries`
data structure the client reads only `orderParameters`, the list of
parameter names the branch requires for orders. -/
structure Library where
  orderParameters : List String

/-- `OpenPlatform.getBranch`: look the branch up via
`getLibraries({branchIds: [branchId]})` (the oracle `getLibs` receives
the branch id list), fail with "branch not found" on an empty result,
otherwise return the first record. -/
def getBranch (getLibs : List String → Except String (List Library))
    (branchId : String) : Except String Library :=
  match getLibs [branchId] with
  | Except.error e => Except.error e
  | Except.ok branches =>
    if h : branches.length < 1 then Except.error "branch not found"
    else Except.ok (branches.get ⟨0, by omega⟩)

/-- Evaluation of `getBranch` on a successful lookup. -/
theorem getBranch_ok (getLibs : List String → Except String (List Library))
    (branchId : String) (ls : List Library)
    (hlibs : getLibs [branchId] = Except.ok ls) :
    getBranch getLibs branchId
      = if h : ls.length < 1 then Except.error "branch not found"
        else Except.ok (ls.get ⟨0, by omega⟩) := by
  unfold getBranch
  rw [hlibs]

/-- Claim C7: whenever the `getLibraries` lookup for the single branch id
returns a list, `getBranch` fails with "branch not found" exactly when
that list is empty, and otherwise returns its first element. -/
theorem getBranch_spec (getLibs : List String → Except String (List Library))
    (branchId : String) (ls : List Library)
    (hlibs : getLibs [branchId] = Except.ok ls) :
    (getBranch getLibs branchId = Except.error "branch not found" ↔ ls = []) ∧
    (∀ b rest, ls = b :: rest → getBranch getLibs branchId = Except.ok b) := by
  have heval := getBranch_ok getLibs branchId ls hlibs
  constructor
  · constructor
    · intro h
      cases ls with
      | nil => rfl
      | cons b rest =>
        rw [heval, dif_neg (by simp)] at h
        exact absurd h (by simp)
    · intro h
      subst h
      rw [heval]
      rfl
  · intro b rest h
    subst h
    rw [heval, dif_neg (by simp)]
    rfl

/-- Witness for `getBranch_spec`: an empty lookup yields the
"branch not found" failure. -/
theorem getBranch_spec_witness :
    getBranch (fun _ => Except.ok []) "775100" = Except.error "branch not found" :=
  (getBranch_spec (fun _ => Except.ok []) "775100" [] rfl).1.mpr rfl

/-- Boolean prefix test on character lists (structural, so that it
reduces even when the longer list has a symbolic tail). -/
def charsLead : List Char → List Char → Bool
  | [], _ => true
  | _ :: _, [] => false
  | a :: as, b :: bs => a == b && charsLead as bs

/-- String form of `charsLead`: does `s` start with `pre`? -/
def leadsWith (pre s : String) : Bool := charsLead pre.data s.data

/-- The query parameter list built by `OpenPlatform.getLibraries`:
always the access token; `agencyIds` and `branchIds` only when the
respective id list is non-empty, in trailing-comma array encoding. -/
def getLibrariesParameters (libraryToken : String)
    (agencyIds branchIds : List String) : List String :=
  let parameters := ["access_token=" ++ libraryToken]
  let parameters := if agencyIds.length > 0 then
    parameters ++ ["agencyIds=" ++ formatUrlArray agencyIds] else parameters
  let parameters := if branchIds.length > 0 then
    parameters ++ ["branchIds=" ++ formatUrlArray branchIds] else parameters
  parameters

/-- The full `libraries` request path. -/
def getLibrariesPath (libraryToken : String)
    (agencyIds branchIds : List String) : String :=
  "libraries?" ++ String.intercalate "&" (getLibrariesParameters libraryToken agencyIds branchIds)

/-- Claim C9: `getLibraries` includes the `agencyIds` query parameter (in
trailing-comma array encoding) exactly when the agency id list is
non-empty, and likewise for `branchIds`; for an empty list no parameter
of the request even starts with the respective name, rather than an
empty-array encoding being sent. -/
theorem getLibraries_params (libraryToken : String)
    (agencyIds branchIds : List String) :
    getLibrariesParameters libraryToken agencyIds branchIds
      = ["access_token=" ++ libraryToken]
        ++ (if agencyIds = [] then [] else ["agencyIds=" ++ formatUrlArray agencyIds])
        ++ (if branchIds = [] then [] else ["branchIds=" ++ formatUrlArray branchIds]) ∧
    (agencyIds ≠ [] → ("agencyIds=" ++ formatUrlArray agencyIds)
      ∈ getLibrariesParameters libraryToken agencyIds branchIds) ∧
    (agencyIds = [] → ∀ s ∈ getLibrariesParameters libraryToken agencyIds branchIds,
      leadsWith "agencyIds=" s = false) ∧
    (branchIds ≠ [] → ("branchIds=" ++ formatUrlArray branchIds)
      ∈ getLibrariesParameters libraryToken agencyIds branchIds) ∧
    (branchIds = [] → ∀ s ∈ getLibrariesParameters libraryToken agencyIds branchIds,
      leadsWith "branchIds=" s = false) := by
  have hform : getLibrariesParameters libraryToken agencyIds branchIds
      = ["access_token=" ++ libraryToken]
        ++ (if agencyIds = [] then [] else ["agencyIds=" ++ formatUrlArray agencyIds])
        ++ (if branchIds = [] then [] else ["branchIds=" ++ formatUrlArray branchIds]) := by
    cases agencyIds <;> cases branchIds <;>
      simp [getLibrariesParameters]
  refine ⟨hform, ?_, ?_, ?_, ?_⟩
  · intro ha
    rw [hform, if_neg ha]
    simp
  · intro ha s hs
    subst ha
    rw [hform, if_pos rfl] at hs
    rcases List.mem_append.mp hs with h | h
    · rcases List.mem_append.mp h with h | h
      · rw [List.mem_singleton.mp h]; rfl
      · simp at h
    · split at h
      · simp at h
      · rw [List.mem_singleton.mp h]; rfl
  · intro hb
    rw [hform, if_neg hb]
    simp
  · intro hb s hs
    subst hb
    rw [hform, if_pos rfl] at hs
    rcases List.mem_append.mp hs with h | h
    · rcases List.mem_append.mp h with h | h
      · rw [List.mem_singleton.mp h]; rfl
      · split at h
        · simp at h
        · rw [List.mem_singleton.mp h]; rfl
    · simp at h

/-- Witness for `getLibraries_params`: with one branch id and no agency
ids, the branch parameter is present in trailing-comma encoding and no
parameter mentions agencyIds. -/
theorem getLibraries_params_witness :
    ("branchIds=775100," ∈ getLibrariesParameters "tok" [] ["775100"]) ∧
    leadsWith "agencyIds=" "access_token=tok" = false := by
  constructor
  · have h := (getLibraries_params "tok" [] ["775100"]).2.2.2.1 (by decide)
    simpa using h
  · have h := (getLibraries_params "tok" [] ["775100"]).2.2.1 rfl
    exact h "access_token=tok" (by decide)

/-- The authenticated patron record; the client reads `name`, `address`
and `mail`. -/
structure User where
  name : String
  address : String
  mail : String

/-- The order request under construction: the URL query parameter list
and the JSON body (an insertion-ordered object). -/
structure OrderRequest where
  parameters : List String
  body : List (String × JSValue)

/-- JavaScript property assignment `body.key = v` on an
insertion-ordered object: overwrite an existing key, else append. -/
def setField (body : List (String × JSValue)) (key : String) (v : JSValue) :
    List (String × JSValue) :=
  if body.any (fun f => f.1 == key) then
    body.map (fun f => if f.1 == key then (key, v) else f)
  else body ++ [(key, v)]

/-- `constructOrderParameter` from `orderMaterial`: switch on the
branch-required parameter name.  `userId`/`pincode` contribute nothing
(OpenPlatform handles them via the token); `name`/`address` come from
the user record; `email` comes from the user's `mail` field; `phone`
gets the fixed placeholder; anything else falls through unchanged. -/
def constructOrderParameter (user : User) (parameter : String)
    (st : OrderRequest) : OrderRequest :=
  if parameter == "userId" || parameter == "pincode" then st
  else if parameter == "name" then
    { parameters := st.parameters ++ ["name=" ++ user.name],
      body := setField st.body "name" (JSValue.str user.name) }
  else if parameter == "address" then
    { parameters := st.parameters ++ ["address=" ++ user.address],
      body := setField st.body "address" (JSValue.str user.address) }
  else if parameter == "email" then
    { parameters := st.parameters ++ ["email=" ++ user.mail],
      body := setField st.body "email" (JSValue.str user.mail) }
  else if parameter == "phone" then
    { parameters := st.parameters ++ ["phone=12345678"],
      body := setField st.body "phone" (JSValue.str "12345678") }
  else st

/-- The parameters and body `orderMaterial` constructs before the
branch-required parameters are processed: access token (URL only, to
avoid a duplicate-token complaint in the body), `orderType=normal`,
`expires`, quoted `pickUpBranch`, and the pids (trailing-comma array in
the URL, plain array in the body). -/
def orderRequestInit (userToken : String) (pids : List String)
    (pickupBranch expires : String) : OrderRequest :=
  { parameters := ["access_token=" ++ userToken, "orderType=normal",
      "expires=" ++ expires, "pickUpBranch=\"" ++ pickupBranch ++ "\"",
      "pids=" ++ formatUrlArray pids],
    body := [("orderType", JSValue.str "normal"), ("expires", JSValue.str expires),
      ("pickUpBranch", JSValue.str pickupBranch),
      ("pids", JSValue.arr (pids.map JSValue.str))] }

/-- The complete parameter/body construction of `orderMaterial`:
`branch.orderParameters.forEach(constructOrderParameter)` over the
initial state. -/
def buildOrderRequest (userToken : String) (pids : List String)
    (pickupBranch expires : String) (user : User) (branch : Library) :
    OrderRequest :=
  branch.orderParameters.foldl
    (fun st parameter => constructOrderParameter user parameter st)
    (orderRequestInit userToken pids pickupBranch expires)

/-- Fields whose key is outside the switch's targets, and the four
canonical key/value pairs the switch writes, survive every
`constructOrderParameter` step. -/
def stableField (user : User) (f : String × JSValue) : Prop :=
  f.1 ∉ (["name", "address", "email", "phone"] : List String) ∨
  f = ("name", JSValue.str user.name) ∨
  f = ("address", JSValue.str user.address) ∨
  f = ("email", JSValue.str user.mail) ∨
  f = ("phone", JSValue.str "12345678")

/-- `setField` keeps every field with a different key. -/
theorem setField_mem_preserve {body : List (String × JSValue)}
    {f : String × JSValue} {key : String} {v : JSValue}
    (hf : f ∈ body) (hk : f.1 ≠ key) : f ∈ setField body key v := by
  unfold setField
  split
  · refine List.mem_map.mpr ⟨f, hf, ?_⟩
    rw [if_neg (by simpa using hk)]
  · exact List.mem_append_left _ hf

/-- After `setField body key v` the pair `(key, v)` is present. -/
theorem setField_mem_self {body : List (String × JSValue)}
    {key : String} {v : JSValue} : (key, v) ∈ setField body key v := by
  unfold setField
  split
  · rename_i hany
    obtain ⟨g, hg, hgk⟩ := List.any_eq_true.mp hany
    refine List.mem_map.mpr ⟨g, hg, ?_⟩
    rw [if_pos hgk]
  · exact List.mem_append_right _ (List.mem_cons_self _ _)

/-- Membership in `setField body key v` from membership in `body`, given
that a key collision can only be the canonical pair itself. -/
theorem setField_mem_of {body : List (String × JSValue)}
    {f : String × JSValue} {key : String} {v : JSValue}
    (hf : f ∈ body) (hcase : f.1 = key → f = (key, v)) :
    f ∈ setField body key v := by
  by_cases hk : f.1 = key
  · rw [hcase hk]
    exact setField_mem_self
  · exact setField_mem_preserve hf hk

/-- URL parameters only grow: one `constructOrderParameter` step keeps
every existing parameter. -/
theorem constructOrderParameter_param_mono (user : User) (p : String)
    (st : OrderRequest) {s : String} (hs : s ∈ st.parameters) :
    s ∈ (constructOrderParameter user p st).parameters := by
  unfold constructOrderParameter
  repeat' split
  all_goals first
    | exact hs
    | exact List.mem_append_left _ hs

/-- One `constructOrderParameter` step keeps every stable body field. -/
theorem constructOrderParameter_body_stable (user : User) (p : String)
    (st : OrderRequest) {f : String × JSValue}
    (hstable : stableField user f) (hf : f ∈ st.body) :
    f ∈ (constructOrderParameter user p st).body := by
  unfold constructOrderParameter
  repeat' split
  · exact hf
  · refine setField_mem_of hf (fun hk => ?_)
    rcases hstable with hnot | h | h | h | h
    · rw [hk] at hnot; simp at hnot
    · exact h
    · rw [h] at hk; simp at hk
    · rw [h] at hk; simp at hk
    · rw [h] at hk; simp at hk
  · refine setField_mem_of hf (fun hk => ?_)
    rcases hstable with hnot | h | h | h | h
    · rw [hk] at hnot; simp at hnot
    · rw [h] at hk; simp at hk
    · exact h
    · rw [h] at hk; simp at hk
    · rw [h] at hk; simp at hk
  · refine setField_mem_of hf (fun hk => ?_)
    rcases hstable with hnot | h | h | h | h
    · rw [hk] at hnot; simp at hnot
    · rw [h] at hk; simp at hk
    · rw [h] at hk; simp at hk
    · exact h
    · rw [h] at hk; simp at hk
  · refine setField_mem_of hf (fun hk => ?_)
    rcases hstable with hnot | h | h | h | h
    · rw [hk] at hnot; simp at hnot
    · rw [h] at hk; simp at hk
    · rw [h] at hk; simp at hk
    · rw [h] at hk; simp at hk
    · exact h
  · exact hf

/-- The whole `forEach` keeps every existing URL parameter. -/
theorem foldl_param_mono (user : User) : ∀ (l : List String) (st : OrderRequest)
    {s : String}, s ∈ st.parameters →
    s ∈ (l.foldl (fun st p => constructOrderParameter user p st) st).parameters := by
  intro l
  induction l with
  | nil => intro st s hs; exact hs
  | cons p l ih =>
    intro st s hs
    exact ih _ (constructOrderParameter_param_mono user p st hs)

/-- The whole `forEach` keeps every stable body field. -/
theorem foldl_body_stable (user : User) : ∀ (l : List String) (st : OrderRequest)
    {f : String × JSValue}, stableField user f → f ∈ st.body →
    f ∈ (l.foldl (fun st p => constructOrderParameter user p st) st).body := by
  intro l
  induction l with
  | nil => intro st f _ hf; exact hf
  | cons p l ih =>
    intro st f hstable hf
    exact ih _ hstable (constructOrderParameter_body_stable user p st hstable hf)

/-- The `name` step adds the parameter and the body field. -/
theorem constructOrderParameter_adds_name (user : User) (st : OrderRequest) :
    ("name=" ++ user.name) ∈ (constructOrderParameter user "name" st).parameters ∧
    ("name", JSValue.str user.name) ∈ (constructOrderParameter user "name" st).body := by
  constructor
  · show ("name=" ++ user.name) ∈ st.parameters ++ ["name=" ++ user.name]
    exact List.mem_append_right _ (List.mem_cons_self _ _)
  · show ("name", JSValue.str user.name) ∈ setField st.body "name" (JSValue.str user.name)
    exact setField_mem_self

/-- The `address` step adds the parameter and the body field. -/
theorem constructOrderParameter_adds_address (user : User) (st : OrderRequest) :
    ("address=" ++ user.address) ∈ (constructOrderParameter user "address" st).parameters ∧
    ("address", JSValue.str user.address) ∈ (constructOrderParameter user "address" st).body := by
  constructor
  · show ("address=" ++ user.address) ∈ st.parameters ++ ["address=" ++ user.address]
    exact List.mem_append_right _ (List.mem_cons_self _ _)
  · show ("address", JSValue.str user.address) ∈ setField st.body "address" (JSValue.str user.address)
    exact setField_mem_self

/-- The `email` step adds the parameter and the body field, both from
the user's `mail`. -/
theorem constructOrderParameter_adds_email (user : User) (st : OrderRequest) :
    ("email=" ++ user.mail) ∈ (constructOrderParameter user "email" st).parameters ∧
    ("email", JSValue.str user.mail) ∈ (constructOrderParameter user "email" st).body := by
  constructor
  · show ("email=" ++ user.mail) ∈ st.parameters ++ ["email=" ++ user.mail]
    exact List.mem_append_right _ (List.mem_cons_self _ _)
  · show ("email", JSValue.str user.mail) ∈ setField st.body "email" (JSValue.str user.mail)
    exact setField_mem_self

/-- The `phone` step adds the placeholder parameter and body field. -/
theorem constructOrderParameter_adds_phone (user : User) (st : OrderRequest) :
    "phone=12345678" ∈ (constructOrderParameter user "phone" st).parameters ∧
    ("phone", JSValue.str "12345678") ∈ (constructOrderParameter user "phone" st).body := by
  constructor
  · show "phone=12345678" ∈ st.parameters ++ ["phone=12345678"]
    exact List.mem_append_right _ (List.mem_cons_self _ _)
  · show ("phone", JSValue.str "12345678") ∈ setField st.body "phone" (JSValue.str "12345678")
    exact setField_mem_self

/-- Every recognized branch-required name in the processed list ends up
in both the URL parameter list and the body of the folded state. -/
theorem foldl_adds (user : User) : ∀ (l : List String) (st : OrderRequest)
    (k : String), k ∈ l →
    (k = "name" →
      ("name=" ++ user.name)
        ∈ (l.foldl (fun st p => constructOrderParameter user p st) st).parameters ∧
      ("name", JSValue.str user.name)
        ∈ (l.foldl (fun st p => constructOrderParameter user p st) st).body) ∧
    (k = "address" →
      ("address=" ++ user.address)
        ∈ (l.foldl (fun st p => constructOrderParameter user p st) st).parameters ∧
      ("address", JSValue.str user.address)
        ∈ (l.foldl (fun st p => constructOrderParameter user p st) st).body) ∧
    (k = "email" →
      ("email=" ++ user.mail)
        ∈ (l.foldl (fun st p => constructOrderParameter user p st) st).parameters ∧
      ("email", JSValue.str user.mail)
        ∈ (l.foldl (fun st p => constructOrderParameter user p st) st).body) ∧
    (k = "phone" →
      "phone=12345678"
        ∈ (l.foldl (fun st p => constructOrderParameter user p st) st).parameters ∧
      ("phone", JSValue.str "12345678")
        ∈ (l.foldl (fun st p => constructOrderParameter user p st) st).body) := by
  intro l
  induction l with
  | nil => intro st k hk; simp at hk
  | cons p l ih =>
    intro st k hk
    rcases List.mem_cons.mp hk with h | h
    · subst h
      refine ⟨fun hk2 => ?_, fun hk2 => ?_, fun hk2 => ?_, fun hk2 => ?_⟩
      · subst hk2
        have hadd := constructOrderParameter_adds_name user st
        exact ⟨foldl_param_mono user l _ hadd.1,
          foldl_body_stable user l _ (Or.inr (Or.inl rfl)) hadd.2⟩
      · subst hk2
        have hadd := constructOrderParameter_adds_address user st
        exact ⟨foldl_param_mono user l _ hadd.1,
          foldl_body_stable user l _ (Or.inr (Or.inr (Or.inl rfl))) hadd.2⟩
      · subst hk2
        have hadd := constructOrderParameter_adds_email user st
        exact ⟨foldl_param_mono user l _ hadd.1,
          foldl_body_stable user l _ (Or.inr (Or.inr (Or.inr (Or.inl rfl)))) hadd.2⟩
      · subst hk2
        have hadd := constructOrderParameter_adds_phone user st
        exact ⟨foldl_param_mono user l _ hadd.1,
          foldl_body_stable user l _ (Or.inr (Or.inr (Or.inr (Or.inr rfl)))) hadd.2⟩
    · exact ih (constructOrderParameter user p st) k h

/-- Claim C5: the branch-required parameter mapping of `orderMaterial`:
`userId` and `pincode` contribute nothing; `name` and `address` are
copied from the user record; `email` is copied from the user's `mail`
field; `phone` gets the fixed placeholder "12345678"; any unrecognized
name is silently skipped without failing.  For
`orderParameters = ["name", "phone"]` the body is the base body plus the
user's name and the placeholder phone, with no userId or pincode key. -/
theorem constructOrderParameter_spec (user : User) (st : OrderRequest)
    (p : String) (userToken pickupBranch expires : String) (pids : List String)
    (hp : p ∉ (["userId", "pincode", "name", "address", "email", "phone"] : List String)) :
    constructOrderParameter user "userId" st = st ∧
    constructOrderParameter user "pincode" st = st ∧
    (constructOrderParameter user "name" st).body
      = setField st.body "name" (JSValue.str user.name) ∧
    (constructOrderParameter user "address" st).body
      = setField st.body "address" (JSValue.str user.address) ∧
    (constructOrderParameter user "email" st).body
      = setField st.body "email" (JSValue.str user.mail) ∧
    (constructOrderParameter user "phone" st).body
      = setField st.body "phone" (JSValue.str "12345678") ∧
    constructOrderParameter user p st = st ∧
    (buildOrderRequest userToken pids pickupBranch expires user ⟨["name", "phone"]⟩).body
      = (orderRequestInit userToken pids pickupBranch expires).body
        ++ [("name", JSValue.str user.name), ("phone", JSValue.str "12345678")] ∧
    ("name", JSValue.str user.name)
      ∈ (buildOrderRequest userToken pids pickupBranch expires user ⟨["name", "phone"]⟩).body ∧
    ("phone", JSValue.str "12345678")
      ∈ (buildOrderRequest userToken pids pickupBranch expires user ⟨["name", "phone"]⟩).body ∧
    "userId" ∉ (buildOrderRequest userToken pids pickupBranch expires user
      ⟨["name", "phone"]⟩).body.map Prod.fst ∧
    "pincode" ∉ (buildOrderRequest userToken pids pickupBranch expires user
      ⟨["name", "phone"]⟩).body.map Prod.fst := by
  have hG : constructOrderParameter user p st = st := by
    simp only [List.mem_cons, List.mem_singleton, not_or] at hp
    obtain ⟨h1, h2, h3, h4, h5, h6⟩ := hp
    simp [constructOrderParameter, h1, h2, h3, h4, h5, h6]
  refine ⟨rfl, rfl, rfl, rfl, rfl, rfl, hG, rfl, ?_, ?_, ?_, ?_⟩
  · show ("name", JSValue.str user.name)
      ∈ [("orderType", JSValue.str "normal"), ("expires", JSValue.str expires),
        ("pickUpBranch", JSValue.str pickupBranch),
        ("pids", JSValue.arr (pids.map JSValue.str)),
        ("name", JSValue.str user.name), ("phone", JSValue.str "12345678")]
    exact List.Mem.tail _ (List.Mem.tail _ (List.Mem.tail _ (List.Mem.tail _
      (List.Mem.head _))))
  · show ("phone", JSValue.str "12345678")
      ∈ [("orderType", JSValue.str "normal"), ("expires", JSValue.str expires),
        ("pickUpBranch", JSValue.str pickupBranch),
        ("pids", JSValue.arr (pids.map JSValue.str)),
        ("name", JSValue.str user.name), ("phone", JSValue.str "12345678")]
    exact List.Mem.tail _ (List.Mem.tail _ (List.Mem.tail _ (List.Mem.tail _
      (List.Mem.tail _ (List.Mem.head _)))))
  · show "userId" ∉ ["orderType", "expires", "pickUpBranch", "pids", "name", "phone"]
    decide
  · show "pincode" ∉ ["orderType", "expires", "pickUpBranch", "pids", "name", "phone"]
    decide

/-- Witness for `constructOrderParameter_spec`: an unrecognized required
parameter is skipped, and the example branch produces the placeholder
phone field. -/
theorem constructOrderParameter_spec_witness :
    constructOrderParameter ⟨"Jane", "Road 1", "jane@example.com"⟩ "nickname" ⟨[], []⟩
      = ⟨[], []⟩ ∧
    ("phone", JSValue.str "12345678")
      ∈ (buildOrderRequest "t" ["870970-basis:1"] "775100" "2090-01-01"
          ⟨"Jane", "Road 1", "jane@example.com"⟩ ⟨["name", "phone"]⟩).body := by
  have h := constructOrderParameter_spec ⟨"Jane", "Road 1", "jane@example.com"⟩
    ⟨[], []⟩ "nickname" "t" "775100" "2090-01-01" ["870970-basis:1"] (by decide)
  exact ⟨h.2.2.2.2.2.2.1, h.2.2.2.2.2.2.2.2.2.1⟩

/-- Claim C8 (amended): the URL query parameters and the JSON body of
`orderMaterial` carry the same order data: `orderType`, `expires`,
`pickUpBranch` and `pids` each appear in both the URL parameter list and
the POST body, and every branch-required parameter among `name`,
`address`, `email`, `phone` appears in both; branch-required `userId`
and `pincode` (handled upstream via the access token) and unrecognized
names are omitted instead of appearing in both. -/
theorem orderMaterial_url_body (userToken pickupBranch expires : String)
    (pids : List String) (user : User) (branch : Library)
    (final : OrderRequest)
    (hfinal : final = buildOrderRequest userToken pids pickupBranch expires user branch) :
    ("orderType=normal" ∈ final.parameters ∧
      ("orderType", JSValue.str "normal") ∈ final.body) ∧
    (("expires=" ++ expires) ∈ final.parameters ∧
      ("expires", JSValue.str expires) ∈ final.body) ∧
    (("pickUpBranch=\"" ++ pickupBranch ++ "\"") ∈ final.parameters ∧
      ("pickUpBranch", JSValue.str pickupBranch) ∈ final.body) ∧
    (("pids=" ++ formatUrlArray pids) ∈ final.parameters ∧
      ("pids", JSValue.arr (pids.map JSValue.str)) ∈ final.body) ∧
    (∀ k ∈ branch.orderParameters,
      (k = "name" → ("name=" ++ user.name) ∈ final.parameters ∧
        ("name", JSValue.str user.name) ∈ final.body) ∧
      (k = "address" → ("address=" ++ user.address) ∈ final.parameters ∧
        ("address", JSValue.str user.address) ∈ final.body) ∧
      (k = "email" → ("email=" ++ user.mail) ∈ final.parameters ∧
        ("email", JSValue.str user.mail) ∈ final.body) ∧
      (k = "phone" → "phone=12345678" ∈ final.parameters ∧
        ("phone", JSValue.str "12345678") ∈ final.body)) := by
  subst hfinal
  unfold buildOrderRequest
  refine ⟨⟨?_, ?_⟩, ⟨?_, ?_⟩, ⟨?_, ?_⟩, ⟨?_, ?_⟩, ?_⟩
  · exact foldl_param_mono user branch.orderParameters _
      (List.Mem.tail _ (List.Mem.head _))
  · exact foldl_body_stable user branch.orderParameters _ (Or.inl (by decide))
      (List.Mem.head _)
  · exact foldl_param_mono user branch.orderParameters _
      (List.Mem.tail _ (List.Mem.tail _ (List.Mem.head _)))
  · refine foldl_body_stable user branch.orderParameters _ (Or.inl ?_)
      (List.Mem.tail _ (List.Mem.head _))
    show ("expires" : String) ∉ ["name", "address", "email", "phone"]
    decide
  · exact foldl_param_mono user branch.orderParameters _
      (List.Mem.tail _ (List.Mem.tail _ (List.Mem.tail _ (List.Mem.head _))))
  · refine foldl_body_stable user branch.orderParameters _ (Or.inl ?_)
      (List.Mem.tail _ (List.Mem.tail _ (List.Mem.head _)))
    show ("pickUpBranch" : String) ∉ ["name", "address", "email", "phone"]
    decide
  · exact foldl_param_mono user branch.orderParameters _
      (List.Mem.tail _ (List.Mem.tail _ (List.Mem.tail _ (List.Mem.tail _
        (List.Mem.head _)))))
  · refine foldl_body_stable user branch.orderParameters _ (Or.inl ?_)
      (List.Mem.tail _ (List.Mem.tail _ (List.Mem.tail _ (List.Mem.head _))))
    show ("pids" : String) ∉ ["name", "address", "email", "phone"]
    decide
  · intro k hk
    exact foldl_adds user branch.orderParameters _ k hk

/-- Claim C8, counterexample to the claim as stated: for a branch that
declares `orderParameters = ["userId"]`, the branch-required field
`userId` appears in neither the URL parameter list nor the body, so not
every branch-required parameter appears in both places. -/
theorem orderMaterial_url_body_cex :
    (buildOrderRequest "t" ["p1"] "b" "e" ⟨"N", "A", "M"⟩ ⟨["userId"]⟩).parameters
      = ["access_token=t", "orderType=normal", "expires=e",
        "pickUpBranch=\"b\"", "pids=p1,"] ∧
    (buildOrderRequest "t" ["p1"] "b" "e" ⟨"N", "A", "M"⟩ ⟨["userId"]⟩).body.map Prod.fst
      = ["orderType", "expires", "pickUpBranch", "pids"] ∧
    "userId" ∉ (buildOrderRequest "t" ["p1"] "b" "e" ⟨"N", "A", "M"⟩
      ⟨["userId"]⟩).body.map Prod.fst ∧
    (∀ s ∈ (buildOrderRequest "t" ["p1"] "b" "e" ⟨"N", "A", "M"⟩
      ⟨["userId"]⟩).parameters, leadsWith "userId=" s = false) := by
  exact ⟨by decide, rfl, by decide, by decide⟩

/-- Witness for `orderMaterial_url_body`: a branch requiring `email`
yields the email in both the URL parameters and the body. -/
theorem orderMaterial_url_body_witness :
    ("email=m@x.dk" ∈ (buildOrderRequest "t" ["p1"] "775100" "e"
      ⟨"N", "A", "m@x.dk"⟩ ⟨["email"]⟩).parameters) ∧
    ("email", JSValue.str "m@x.dk") ∈ (buildOrderRequest "t" ["p1"] "775100" "e"
      ⟨"N", "A", "m@x.dk"⟩ ⟨["email"]⟩).body := by
  have h := orderMaterial_url_body "t" "775100" "e" ["p1"] ⟨"N", "A", "m@x.dk"⟩
    ⟨["email"]⟩ _ rfl
  have h2 := (h.2.2.2.2 "email" (List.mem_singleton.mpr rfl)).2.2.1 rfl
  exact ⟨h2.1, h2.2⟩
